import Mathlib

/-!
Verification of the `@ibetoni/cache` shared package: the universal cache
manager (`UniversalCacheManager`, key generation, TTL computation, date-key
formatting, SCAN-based pattern invalidation, batch deletion) and the
Redis-backed distributed lock manager (`DistributedLockManager` /
`DistributedLock`).

The JavaScript source is shallowly embedded: the Redis store is a finite
association of keys to values, `Math.random()` draws are explicit rational
parameters, and Redis command outcomes that can fail (scan rounds, batch
DEL calls) are driven by explicit oracles.  All definitions are translated
from the source files of the repository; definitions whose name starts with
`spec` follow the natural-language specification instead and exist only for
comparison.
-/

namespace IbetoniCache

/-! ## JavaScript values appearing as cache-key parameters

`generateKey` receives a variadic list of JS values; the source filters the
nullish ones (`p != null` removes both `null` and `undefined`) and passes
the rest through `String(p)`. -/

inductive JSVal where
  | jsNull : JSVal
  | jsUndefined : JSVal
  | str : String → JSVal
  | int : Int → JSVal
  deriving DecidableEq, Repr

/-- `p != null` in JS: false exactly for `null` and `undefined`. -/
def JSVal.nonNullish : JSVal → Bool
  | .jsNull => false
  | .jsUndefined => false
  | _ => true

/-- `String(p)` for the value shapes that reach `generateKey`. -/
def JSVal.toJsString : JSVal → String
  | .jsNull => "null"
  | .jsUndefined => "undefined"
  | .str s => s
  | .int n => toString n

/-- `UniversalCacheManager.generateKey(entityType, operation, ...params)`:
filters out nullish params, stringifies the rest, joins with `:` after the
entity-type and operation segments. -/
def generateKey (entityType operation : String) (params : List JSVal) : String :=
  let cleanParams := (params.filter JSVal.nonNullish).map JSVal.toJsString
  entityType ++ ":" ++ operation ++ ":" ++ String.intercalate ":" cleanParams

/-! ## Redis glob matching

The invalidation patterns that `UniversalCacheManager` builds contain only
literal characters and `*`; `*` in a Redis `MATCH` glob matches any
(possibly empty) sequence of characters, including `:`.  The matcher is
defined on character lists. -/

def globMatch : List Char → List Char → Bool
  | [], [] => true
  | p :: ps, [] => if p = '*' then globMatch ps [] else false
  | [], _ :: _ => false
  | p :: ps, c :: cs =>
    if p = '*' then globMatch ps (c :: cs) || globMatch (p :: ps) cs
    else p = c && globMatch ps cs
termination_by ps cs => (cs.length, ps.length)

/-- String-level wrapper used by the store model. -/
def globMatchStr (pattern key : String) : Bool :=
  globMatch pattern.toList key.toList

/-! ## Redis store model for invalidation

Invalidation only inspects which keys exist, so the store is modelled as the
list of present keys.  `scanKeys` completing inside its round cap enumerates
exactly the keys matching the pattern (the capped loop itself is modelled
separately below for the termination claim). -/

abbrev Store := List String

/-- `scanKeys(pattern)` as seen by callers when the SCAN cursor loop
completes: all present keys matching the glob pattern. -/
def scanKeysFull (store : Store) (pattern : String) : List String :=
  store.filter (fun k => globMatchStr pattern k)

/-- The batches `keys.slice(i, i + batchSize)` walked by `batchDelete`.
(`batchSize` is always the positive constant `BATCH_SIZE = 2000`; a zero
batch size yields no batches rather than looping.) -/
def chunkList (n : Nat) : List α → List (List α)
  | [] => []
  | a :: l =>
    if _h : n = 0 then []
    else (a :: l).take n :: chunkList n ((a :: l).drop n)
termination_by l => l.length
decreasing_by simp only [List.length_drop, List.length_cons]; omega

/-- The recursion inside `batchDelete`: walk batches in order; a batch whose
`DEL` fails (per-batch failure oracle `delFails`, indexed by batch number)
contributes nothing and is skipped; a successful batch removes its keys from
the store and contributes `batch.length` to `deletedCount`. -/
def batchDeleteGo (delFails : Nat → Bool) :
    List (List String) → Nat → Store → Nat × Store
  | [], _, store => (0, store)
  | b :: bs, i, store =>
    if delFails i then batchDeleteGo delFails bs (i + 1) store
    else
      let rest := batchDeleteGo delFails bs (i + 1) (store.filter (fun k => decide (k ∉ b)))
      (b.length + rest.1, rest.2)

/-- `UniversalCacheManager.batchDelete(keys, batchSize)`: returns the
reported `deletedCount` and the store after the `DEL` calls. -/
def batchDelete (delFails : Nat → Bool) (store : Store) (keys : List String)
    (batchSize : Nat := 2000) : Nat × Store :=
  if keys = [] then (0, store)
  else batchDeleteGo delFails (chunkList batchSize keys) 0 store

/-- Sum of the sizes of the batches whose `DEL` call succeeds. -/
def successfulBatchSizes (delFails : Nat → Bool) : List (List String) → Nat → Nat
  | [], _ => 0
  | b :: bs, i =>
    (if delFails i then 0 else b.length) + successfulBatchSizes delFails bs (i + 1)

/-- The failure-free instantiation of the per-batch `DEL` oracle. -/
def noDelFailures : Nat → Bool := fun _ => false

/-- `UniversalCacheManager.invalidateByPattern(pattern)`: scan for matching
keys, batch-delete them when any were found, report the count. -/
def invalidateByPattern (delFails : Nat → Bool) (store : Store) (pattern : String) :
    Nat × Store :=
  let keys := scanKeysFull store pattern
  if 0 < keys.length then batchDelete delFails store keys
  else (0, store)

/-! ## TTL policy (`this.TTL` table and the TTL computed by `cache`) -/

/-- The per-entity-type base TTL table (seconds) from the
`UniversalCacheManager` constructor. -/
def TTL : List (String × Nat) :=
  [("keikka", 3600), ("asiakas", 7200), ("tyomaa", 7200), ("person", 7200),
   ("personpvm", 3600), ("personpvmStatus", 43200), ("betoni", 3600),
   ("betoniReference", 7200), ("betoniLaatu", 7200), ("betoniShortcut", 7200),
   ("betoniList", 1800), ("betoniAttr", 3600), ("config", 43200),
   ("vehicle", 7200), ("vehicleDate", 7200), ("vehicleDateType", 43200),
   ("vehicleRequiredDateType", 7200), ("personDate", 7200),
   ("personDateType", 43200), ("personRequiredDateType", 43200),
   ("tyomaaDate", 7200), ("tyomaaDateType", 43200), ("asiakasDate", 7200),
   ("asiakasDateType", 43200), ("complianceDashboard", 900), ("sijainti", 7200),
   ("geocode", 3600), ("attachment", 600), ("attachmentTypes", 43200),
   ("tuote", 7200), ("productReference", 43200), ("barColor", 43200),
   ("invoiceStatus", 43200), ("tyomaaPerson", 1800), ("asiakasPerson", 1800),
   ("keikkaPerson", 1800), ("keikkaBetoni", 3600), ("dailyMessage", 7200),
   ("dailyConfirmation", 7200), ("stat", 7200), ("stepLog", 900),
   ("grid", 900), ("help", 43200), ("legalDocument", 86400), ("weather", 3600),
   ("ecofleet", 60), ("lasku", 1800), ("holiday", 86400), ("default", 900)]

/-- `this.TTL[entityType] || this.TTL.default` (all table entries are
non-zero, so falsiness coincides with absence). -/
def baseTtlFor (entityType : String) : Nat :=
  (TTL.lookup entityType).getD 900

/-- The TTL that `cache(key, data, entityType)` writes with:
`baseTtl + Math.floor(baseTtl * 0.05 * (Math.random() * 2 - 1))`, where
`rand` is the `Math.random()` draw (`0 ≤ rand < 1`). -/
def cacheTtl (entityType : String) (rand : ℚ) : Int :=
  let baseTtl : Int := baseTtlFor entityType
  let jitter : Int := Int.floor ((baseTtl : ℚ) * (5 / 100) * (rand * 2 - 1))
  baseTtl + jitter

/-- Modelled from the spec: the TTL band
`base*(multiplier - jitterFraction) ≤ ttl ≤ base*(multiplier + jitterFraction)`
with the process-wide multiplier (default 4.0) and jitter fraction
(default 5 %), against which the code's computed TTL is compared. -/
def specTtlBand (base multiplier jitterFraction ttl : ℚ) : Prop :=
  base * (multiplier - jitterFraction) ≤ ttl ∧
    ttl ≤ base * (multiplier + jitterFraction)

/-! ## Environment-controlled cache disabling and the `withRedis` fallbacks -/

/-- The environment variables `getClient` consults. -/
structure Env where
  redisCacheEnabled : Option String := none
  nodeEnv : Option String := none

/-- The disable check at the top of `getClient`:
`process.env.REDIS_CACHE_ENABLED === "false" || (process.env.NODE_ENV ===
"production" && process.env.REDIS_CACHE_ENABLED !== "true")`. -/
def cacheDisabled (e : Env) : Bool :=
  e.redisCacheEnabled == some "false" ||
    (e.nodeEnv == some "production" && !(e.redisCacheEnabled == some "true"))

/-- Key-value store for `get`/`setex`; each entry carries the value written
and the TTL it was written with. -/
abbrev CacheKV := List (String × String × Int)

def kvLookup (st : CacheKV) (key : String) : Option String :=
  (st.lookup key).map Prod.fst

/-- Result of a cache-store call: the value returned to the caller, the
store afterwards, and whether the backing store was contacted. -/
structure CacheCallResult (α : Type) where
  value : α
  store : CacheKV
  contacted : Bool
  deriving Repr, DecidableEq

/-- `get(key)`: `withRedis` with fallback `null`; when the client is
unavailable (cache disabled) it returns the fallback without touching
Redis, otherwise `redis.get(key)` (hit parses the stored JSON, modelled as
returning the stored string). -/
def getOp (e : Env) (st : CacheKV) (key : String) : CacheCallResult (Option String) :=
  if cacheDisabled e then ⟨none, st, false⟩
  else ⟨kvLookup st key, st, true⟩

/-- `cache(key, data, entityType)`: `withRedis` with fallback `false`; when
the client is available it runs `redis.setex(key, ttl, JSON.stringify(data))`
and returns `true`. -/
def cacheOp (e : Env) (st : CacheKV) (key data entityType : String) (rand : ℚ) :
    CacheCallResult Bool :=
  if cacheDisabled e then ⟨false, st, false⟩
  else ⟨true, (key, data, cacheTtl entityType rand) :: st.filter (fun kv => kv.1 != key), true⟩

/-! ## Distributed lock manager (`DistributedLockManager` / `DistributedLock`) -/

/-- The lock handle: key, owner token, and the local `released` flag. -/
structure DistributedLock where
  lockKey : String
  lockValue : String
  released : Bool
  deriving DecidableEq, Repr

/-- The lock keyspace: present keys with their stored owner tokens (a key
expiring under TTL is modelled by its entry disappearing). -/
abbrev LockStore := List (String × String)

/-- `generateLockValue()`: `{processId}:{timestamp}:{random}`. -/
def generateLockValue (processId timestamp : Nat) (random : String) : String :=
  toString processId ++ ":" ++ toString timestamp ++ ":" ++ random

/-- `acquireLock(resource, ttlMs)`: `SET lockKey lockValue PX ttlMs NX`;
returns a `DistributedLock` when the set succeeded, `null` when the key
already exists, and `null` (instead of throwing) when the Redis call
errors (`redisError`). -/
def acquireLock (st : LockStore) (resource : String) (lockValue : String)
    (redisError : Bool) : Option DistributedLock × LockStore :=
  let lockKey := "lock:" ++ resource
  if redisError then (none, st)
  else
    match st.lookup lockKey with
    | some _ => (none, st)
    | none => (some ⟨lockKey, lockValue, false⟩, (lockKey, lockValue) :: st)

/-- `DistributedLock.release()`: a local no-op returning `false` when the
handle is already released; otherwise the Lua script
`if GET(key) == value then DEL(key) return 1 else return 0`, after which the
handle is marked released and `wasOwner` is returned. -/
def releaseLock (st : LockStore) (l : DistributedLock) :
    Bool × LockStore × DistributedLock :=
  if l.released then (false, st, l)
  else
    match st.lookup l.lockKey with
    | some v =>
      if v = l.lockValue then
        (true, st.filter (fun kv => kv.1 != l.lockKey), { l with released := true })
      else (false, st, { l with released := true })
    | none => (false, st, { l with released := true })

/-! ## Date formatting (`formatDateForRedis`)

JS `Date` UTC accessors are modelled with the standard civil-calendar
conversion on epoch days; `new Date(string)` is modelled for the ISO forms
`YYYY-MM-DD` and `YYYY-MM-DDTHH:MM:SSZ` (all other strings give an invalid
date, i.e. `none`). -/

/-- Epoch-day number of a civil date (proleptic Gregorian). -/
def daysFromCivil (y m d : Int) : Int :=
  let yy := if m ≤ 2 then y - 1 else y
  let era := (if 0 ≤ yy then yy else yy - 399) / 400
  let yoe := yy - era * 400
  let mp := (m + 9) % 12
  let doy := (153 * mp + 2) / 5 + d - 1
  let doe := yoe * 365 + yoe / 4 - yoe / 100 + doy
  era * 146097 + doe - 719468

/-- Civil date `(year, month, day)` of an epoch-day number. -/
def civilFromDays (z0 : Int) : Int × Int × Int :=
  let z := z0 + 719468
  let era := (if 0 ≤ z then z else z - 146096) / 146097
  let doe := z - era * 146097
  let yoe := (doe - doe / 1460 + doe / 36524 - doe / 146096) / 365
  let y := yoe + era * 400
  let doy := doe - (365 * yoe + yoe / 4 - yoe / 100)
  let mp := (5 * doy + 2) / 153
  let d := doy - (153 * mp + 2) / 5 + 1
  let m := if mp < 10 then mp + 3 else mp - 9
  (if m ≤ 2 then y + 1 else y, m, d)

/-- `String(n).padStart(2, "0")` for the two-digit date fields. -/
def pad2 (n : Int) : String :=
  if n < 10 then "0" ++ toString n else toString n

/-- The `YYYYMMDDHHMMSS` UTC rendering at the end of `formatDateForRedis`. -/
def formatUTCFromMillis (ms : Int) : String :=
  let days := Int.fdiv ms 86400000
  let tod := ms - days * 86400000
  let c := civilFromDays days
  toString c.1 ++ pad2 c.2.1 ++ pad2 c.2.2 ++
    pad2 (tod / 3600000) ++ pad2 (tod % 3600000 / 60000) ++ pad2 (tod % 60000 / 1000)

/-- Numeric value of a decimal digit character. -/
def dd (c : Char) : Int := (c.toNat : Int) - 48

def daysInMonth (y m : Int) : Int :=
  if m = 2 then (if (y % 4 = 0 ∧ ¬y % 100 = 0) ∨ y % 400 = 0 then 29 else 28)
  else if m = 4 ∨ m = 6 ∨ m = 9 ∨ m = 11 then 30 else 31

/-- `new Date(s).getTime()` for the ISO forms the cache callers use;
`none` models an invalid date (`NaN`). -/
def parseJsDate (s : String) : Option Int :=
  match s.toList with
  | [a, b, c, d, '-', e, f, '-', g, h] =>
    if ([a, b, c, d, e, f, g, h].all Char.isDigit) then
      let y := 1000 * dd a + 100 * dd b + 10 * dd c + dd d
      let mo := 10 * dd e + dd f
      let da := 10 * dd g + dd h
      if 1 ≤ mo ∧ mo ≤ 12 ∧ 1 ≤ da ∧ da ≤ daysInMonth y mo then
        some (86400000 * daysFromCivil y mo da)
      else none
    else none
  | [a, b, c, d, '-', e, f, '-', g, h, 'T', i, j, ':', k, l, ':', m, n, 'Z'] =>
    if ([a, b, c, d, e, f, g, h, i, j, k, l, m, n].all Char.isDigit) then
      let y := 1000 * dd a + 100 * dd b + 10 * dd c + dd d
      let mo := 10 * dd e + dd f
      let da := 10 * dd g + dd h
      let hh := 10 * dd i + dd j
      let mi := 10 * dd k + dd l
      let ss := 10 * dd m + dd n
      if 1 ≤ mo ∧ mo ≤ 12 ∧ 1 ≤ da ∧ da ≤ daysInMonth y mo ∧
          hh ≤ 23 ∧ mi ≤ 59 ∧ ss ≤ 59 then
        some (86400000 * daysFromCivil y mo da + 3600000 * hh + 60000 * mi + 1000 * ss)
      else none
    else none
  | _ => none

/-- The date inputs `formatDateForRedis` receives (JS numbers carried by the
cache callers are integral). -/
inductive JSDateInput where
  | num (n : Int)
  | str (s : String)
  | dateObj (ms : Int)
  | jsNull
  | jsUndefined
  deriving DecidableEq, Repr

/-- The `/^\d{8}$/` test. -/
def isEightDigits (s : String) : Bool :=
  s.length == 8 && s.toList.all Char.isDigit

/-- `UniversalCacheManager.formatDateForRedis(dateInput)`. -/
def formatDateForRedis : JSDateInput → String
  | .jsNull => "null"
  | .jsUndefined => "null"
  | .num n =>
    if 10000000000000 < n then toString n
    else if 20000101 ≤ n ∧ n ≤ 99991231 then toString (n * 1000000 + 120000)
    else if n = 0 then "0"
    else toString n
  | .str s =>
    if isEightDigits s then s ++ "120000"
    else
      match parseJsDate s with
      | some ms => formatUTCFromMillis ms
      | none => s
  | .dateObj ms => formatUTCFromMillis ms

/-! ## The `keikka` branch of `invalidate(operation, entityType, params)` -/

/-- JS `a || b` on optional string parameters (callers pass identifiers and
dates as non-empty strings or leave them undefined). -/
def jsOr (a b : Option String) : Option String :=
  match a with
  | some x => some x
  | none => b

/-- The request parameters the `keikka` case of `invalidate` reads
(`params.body?.x` fields are the `bodyX` components). -/
structure KeikkaParams where
  bodyNewDate : Option String := none
  bodyPumppuAika : Option String := none
  bodyPersonId : Option String := none
  bodyKeikkaId : Option String := none
  newDate : Option String := none
  pumppuAika : Option String := none
  date : Option String := none
  personId : Option String := none
  yyyymmdd : Option String := none
  keikkaId : Option String := none
  entityId : Option String := none
  asiakasId : Option String := none
  deriving Repr

/-- `targetDate.substring(0, 10)` with all dashes removed (the regex
replace in the source). -/
def dateToYyyymmdd (t : String) : String :=
  String.mk ((t.take 10).toList.filter (fun c => c ≠ '-'))

/-- The list of patterns the `keikka` case invalidates (in source order). -/
def keikkaPatterns (p : KeikkaParams) : List String :=
  let newDateValue := jsOr p.bodyNewDate p.newDate
  let pumppuAikaValue := jsOr (jsOr p.bodyPumppuAika p.pumppuAika) p.date
  let targetDate := jsOr newDateValue pumppuAikaValue
  let personIdValue := jsOr p.bodyPersonId p.personId
  let keikkaIdValue := jsOr (jsOr p.bodyKeikkaId p.keikkaId) p.entityId
  let asiakasSeg := p.asiakasId.getD "*"
  let individualKeysPattern :=
    match keikkaIdValue with
    | some k => "keikka:get:" ++ asiakasSeg ++ ":" ++ k
    | none => "keikka:get:" ++ asiakasSeg ++ ":*"
  match p.yyyymmdd with
  | some y =>
    [individualKeysPattern,
     "keikka:list:*:*:" ++ y ++ ":*", "keikka:list:*:*:*:" ++ y]
  | none =>
    match targetDate with
    | some t =>
      let y := dateToYyyymmdd t
      [individualKeysPattern,
       "keikka:list:*:*:" ++ y ++ ":*", "keikka:list:*:*:*:" ++ y]
    | none =>
      match personIdValue with
      | some pid => [individualKeysPattern, "keikka:list:*:" ++ pid ++ ":*:*"]
      | none => [individualKeysPattern, "keikka:list:*"]

/-- Whether the `keikka` invalidation removes `key` (it matches one of the
derived patterns). -/
def keikkaDeletes (p : KeikkaParams) (key : String) : Bool :=
  (keikkaPatterns p).any (fun pat => globMatchStr pat key)

/-- The `keikka` case of `invalidate`: apply `invalidateByPattern` for each
derived pattern against the shared store and sum the counts. -/
def invalidateKeikka (delFails : Nat → Bool) (store : Store) (p : KeikkaParams) :
    Nat × Store :=
  (keikkaPatterns p).foldl
    (fun acc pat =>
      let r := invalidateByPattern delFails acc.2 pat
      (acc.1 + r.1, r.2))
    (0, store)

/-! ## The capped SCAN cursor loop (`scanKeys`)

Redis cursors are decimal strings; they are modelled as naturals with `0`
playing the role of `"0"`.  An oracle maps a cursor to the result of
`redis.scan(cursor, "MATCH", pattern, "COUNT", scanCount)` — `none` models
the call throwing. -/

def maxIterations : Nat := 1000

inductive ScanExit where
  | finished
  | capped
  | errored
  deriving DecidableEq, Repr

structure ScanOutcome where
  keys : List String
  rounds : Nat
  exit : ScanExit
  deriving DecidableEq, Repr

/-- The `do … while (cursor !== "0")` body of `scanKeys`: perform a scan
round, accumulate keys, count the iteration, break on the iteration cap, on
a scan error, or on a zero cursor. -/
def scanLoop (oracle : Nat → Option (Nat × List String)) :
    Nat → Nat → List String → Nat → ScanOutcome
  | 0, _, acc, rounds => ⟨acc, rounds, .capped⟩
  | fuel + 1, cursor, acc, rounds =>
    match oracle cursor with
    | none => ⟨acc, rounds, .errored⟩
    | some (c', ks) =>
      let acc' := acc ++ ks
      let rounds' := rounds + 1
      if maxIterations < rounds' then ⟨acc', rounds', .capped⟩
      else if c' = 0 then ⟨acc', rounds', .finished⟩
      else scanLoop oracle fuel c' acc' rounds'

/-- `scanKeys(pattern)` seen as its cursor loop: starts at cursor `"0"`,
runs until the cursor returns to `"0"`, the iteration cap fires, or a scan
round fails. -/
def scanKeysCapped (oracle : Nat → Option (Nat × List String)) : ScanOutcome :=
  scanLoop oracle (maxIterations + 1) 0 [] 0

/-- The cursor in hand before round `i` of the scan. -/
def cursorAt (oracle : Nat → Option (Nat × List String)) : Nat → Nat
  | 0 => 0
  | i + 1 =>
    match oracle (cursorAt oracle i) with
    | some (c, _) => c
    | none => cursorAt oracle i

/-- The keys accumulated by the first `i` scan rounds. -/
def collectRounds (oracle : Nat → Option (Nat × List String)) : Nat → List String
  | 0 => []
  | i + 1 =>
    collectRounds oracle i ++
      (match oracle (cursorAt oracle i) with
       | some (_, ks) => ks
       | none => [])

/-! ## Helper lemmas -/

theorem globMatch_nil_iff (cs : List Char) : globMatch [] cs = true ↔ cs = [] := by
  cases cs <;> simp [globMatch]

/-- A star-free pattern matches only itself. -/
theorem globMatch_starfree (ps : List Char) (h : '*' ∉ ps) (cs : List Char) :
    globMatch ps cs = true ↔ cs = ps := by
  induction ps generalizing cs with
  | nil => cases cs <;> simp [globMatch]
  | cons p ps ih =>
    have hp : p ≠ '*' := fun hc => h (hc ▸ List.mem_cons_self p ps)
    have hps : '*' ∉ ps := fun hc => h (List.mem_cons_of_mem p hc)
    cases cs with
    | nil => simp [globMatch, hp]
    | cons c cs =>
      simp only [globMatch, if_neg hp, Bool.and_eq_true, decide_eq_true_eq]
      rw [ih hps cs]
      constructor
      · rintro ⟨h1, h2⟩; rw [h1, h2]
      · intro hc
        injection hc with h1 h2
        exact ⟨h1.symm, h2⟩

/-- Splitting lemma for a pattern that starts with `*`. -/
theorem globMatch_star (ps : List Char) (cs : List Char) :
    globMatch ('*' :: ps) cs = true ↔ ∃ u v, cs = u ++ v ∧ globMatch ps v = true := by
  induction cs with
  | nil =>
    simp only [globMatch]
    constructor
    · intro hm; exact ⟨[], [], rfl, hm⟩
    · rintro ⟨u, v, huv, hm⟩
      obtain ⟨hu, hv⟩ := List.append_eq_nil.mp huv.symm
      rw [hv] at hm; exact hm
  | cons c cs ih =>
    have : globMatch ('*' :: ps) (c :: cs)
        = (globMatch ps (c :: cs) || globMatch ('*' :: ps) cs) := by
      simp [globMatch]
    rw [this, Bool.or_eq_true, ih]
    constructor
    · rintro (hm | ⟨u, v, huv, hm⟩)
      · exact ⟨[], c :: cs, rfl, hm⟩
      · exact ⟨c :: u, v, by rw [huv]; rfl, hm⟩
    · rintro ⟨u, v, huv, hm⟩
      cases u with
      | nil => left; rw [List.nil_append] at huv; rw [← huv] at hm; exact hm
      | cons a u =>
        right
        injection huv with h1 h2
        exact ⟨u, v, h2, hm⟩

/-- Peeling a star-free literal prefix off a pattern. -/
theorem globMatch_lit_append (lit : List Char) (h : '*' ∉ lit) (ps cs : List Char) :
    globMatch (lit ++ ps) cs = true ↔ ∃ t, cs = lit ++ t ∧ globMatch ps t = true := by
  induction lit generalizing cs with
  | nil =>
    simp only [List.nil_append]
    constructor
    · intro hm; exact ⟨cs, rfl, hm⟩
    · rintro ⟨t, ht, hm⟩; rw [ht]; exact hm
  | cons a lit ih =>
    have ha : a ≠ '*' := fun hc => h (hc ▸ List.mem_cons_self a lit)
    have hlit : '*' ∉ lit := fun hc => h (List.mem_cons_of_mem a hc)
    cases cs with
    | nil =>
      rw [List.cons_append]
      simp [globMatch, ha]
    | cons c cs =>
      rw [List.cons_append]
      simp only [globMatch, if_neg ha, Bool.and_eq_true, decide_eq_true_eq]
      rw [ih hlit cs]
      constructor
      · rintro ⟨h1, t, ht, hm⟩
        exact ⟨t, by rw [h1, ht]; rfl, hm⟩
      · rintro ⟨t, ht, hm⟩
        injection ht with h1 h2
        exact ⟨h1.symm, t, h2, hm⟩

/-- A pattern `lit ++ "*"` (trailing wildcard) matches exactly the strings
having `lit` as a prefix. -/
theorem globMatch_lit_star (lit : List Char) (h : '*' ∉ lit) (cs : List Char) :
    globMatch (lit ++ ['*']) cs = true ↔ lit <+: cs := by
  rw [globMatch_lit_append lit h ['*'] cs]
  constructor
  · rintro ⟨t, ht, _⟩; exact ⟨t, ht.symm⟩
  · rintro ⟨t, ht⟩
    refine ⟨t, ht.symm, ?_⟩
    rw [show (['*'] : List Char) = '*' :: [] from rfl, globMatch_star]
    exact ⟨t, [], by simp, by simp [globMatch]⟩

/-- A pattern `"*" ++ lit` with star-free `lit` matches exactly the strings
having `lit` as a suffix. -/
theorem globMatch_star_lit (lit : List Char) (h : '*' ∉ lit) (cs : List Char) :
    globMatch ('*' :: lit) cs = true ↔ ∃ u, cs = u ++ lit := by
  rw [globMatch_star]
  constructor
  · rintro ⟨u, v, huv, hm⟩
    rw [globMatch_starfree lit h v] at hm
    exact ⟨u, by rw [huv, hm]⟩
  · rintro ⟨u, hu⟩
    exact ⟨u, lit, hu, (globMatch_starfree lit h lit).mpr rfl⟩

theorem chunkList_nil (n : Nat) : chunkList n ([] : List α) = [] := by
  rw [chunkList.eq_def]

theorem chunkList_cons (n : Nat) (hn : n ≠ 0) (a : α) (l : List α) :
    chunkList n (a :: l) = (a :: l).take n :: chunkList n ((a :: l).drop n) := by
  rw [chunkList.eq_def]
  simp [hn]

theorem chunkList_flatten (n : Nat) (hn : n ≠ 0) (l : List α) :
    (chunkList n l).flatten = l := by
  have H : ∀ N (l : List α), l.length ≤ N → (chunkList n l).flatten = l := by
    intro N
    induction N with
    | zero =>
      intro l hl
      rw [List.length_eq_zero.mp (Nat.le_zero.mp hl), chunkList_nil]
      rfl
    | succ N ih =>
      intro l hl
      cases l with
      | nil => rw [chunkList_nil]; rfl
      | cons a t =>
        rw [chunkList_cons n hn, List.flatten_cons, ih _ ?_, List.take_append_drop]
        simp only [List.length_drop, List.length_cons] at hl ⊢
        omega
  exact H l.length l le_rfl

theorem batchDeleteGo_count (delFails : Nat → Bool) (bs : List (List String))
    (i : Nat) (store : Store) :
    (batchDeleteGo delFails bs i store).1 = successfulBatchSizes delFails bs i := by
  induction bs generalizing i store with
  | nil => rfl
  | cons b bs ih =>
    simp only [batchDeleteGo, successfulBatchSizes]
    by_cases h : delFails i = true
    · simp [h, ih]
    · simp only [Bool.not_eq_true] at h
      simp [h, ih]

theorem batchDeleteGo_store_noFail (bs : List (List String)) (i : Nat) (store : Store) :
    (batchDeleteGo noDelFailures bs i store).2
      = store.filter (fun k => decide (k ∉ bs.flatten)) := by
  induction bs generalizing i store with
  | nil => simp [batchDeleteGo]
  | cons b bs ih =>
    simp only [batchDeleteGo, noDelFailures, if_neg Bool.false_ne_true, ih,
      List.filter_filter, List.flatten_cons]
    congr 1
    funext k
    simp [List.mem_append, not_or, Bool.and_comm]

theorem invalidateByPattern_store_noFail (store : Store) (pattern : String) :
    (invalidateByPattern noDelFailures store pattern).2
      = store.filter (fun k => !globMatchStr pattern k) := by
  unfold invalidateByPattern
  by_cases h : 0 < (scanKeysFull store pattern).length
  · simp only [h, if_true]
    unfold batchDelete
    by_cases hk : scanKeysFull store pattern = []
    · simp [hk] at h
    · rw [if_neg hk, batchDeleteGo_store_noFail,
        chunkList_flatten 2000 (by norm_num) (scanKeysFull store pattern)]
      apply List.filter_congr
      intro k hk2
      unfold scanKeysFull
      by_cases hg : globMatchStr pattern k = true
      · simp [List.mem_filter, hk2, hg]
      · simp only [Bool.not_eq_true] at hg
        simp [List.mem_filter, hg]
  · simp only [h, if_false]
    simp only [not_lt, Nat.le_zero, List.length_eq_zero] at h
    have : ∀ k ∈ store, (!globMatchStr pattern k) = true := by
      intro k hk
      by_contra hc
      simp only [Bool.not_eq_true', Bool.not_eq_false] at hc
      have : k ∈ scanKeysFull store pattern := List.mem_filter.mpr ⟨hk, hc⟩
      rw [h] at this
      exact absurd this (List.not_mem_nil k)
    exact (List.filter_eq_self.mpr this).symm

theorem toList_append (s t : String) : (s ++ t).toList = s.toList ++ t.toList :=
  rfl

theorem successfulBatchSizes_noFail (bs : List (List String)) (i : Nat) :
    successfulBatchSizes noDelFailures bs i = bs.flatten.length := by
  induction bs generalizing i with
  | nil => rfl
  | cons b t ih =>
    simp [successfulBatchSizes, noDelFailures, List.flatten_cons, ih]

theorem batchDelete_count_noFail (store : Store) (keys : List String) (hk : keys ≠ []) :
    (batchDelete noDelFailures store keys).1 = keys.length := by
  rw [batchDelete, if_neg hk, batchDeleteGo_count, successfulBatchSizes_noFail,
    chunkList_flatten 2000 (by norm_num)]

theorem invalidateByPattern_no_match (delFails : Nat → Bool) (st : Store)
    (pattern : String) (h : scanKeysFull st pattern = []) :
    invalidateByPattern delFails st pattern = (0, st) := by
  unfold invalidateByPattern
  rw [h]
  simp

/-! ## Claim theorems and witnesses -/

/-- C9: `generateKey(entityType, operation, ...params)` is a pure,
deterministic function of its inputs; `null`/`undefined` params are
filtered out of the joined key rather than rendered as literal text, and
the remaining params are stringified and joined with `:` after the
entity-type and operation segments. -/
theorem generateKey_deterministic_filters_nullish :
    ∀ (E O : String) (ps qs ps₁ ps₂ : List JSVal) (v : JSVal),
      (ps = qs → generateKey E O ps = generateKey E O qs) ∧
      (v.nonNullish = false →
        generateKey E O (ps₁ ++ v :: ps₂) = generateKey E O (ps₁ ++ ps₂)) ∧
      generateKey E O ps
        = E ++ ":" ++ O ++ ":" ++
            String.intercalate ":" ((ps.filter JSVal.nonNullish).map JSVal.toJsString) := by
  intro E O ps qs ps₁ ps₂ v
  refine ⟨fun h => by rw [h], fun hv => ?_, rfl⟩
  unfold generateKey
  rw [List.filter_append, List.filter_append, List.filter_cons_of_neg]
  simp [hv]

/-- Witness for C9 at concrete inputs: inserting `null` between params does
not change the key. -/
theorem generateKey_deterministic_filters_nullish_witness :
    generateKey "keikka" "list" ([JSVal.int 5] ++ JSVal.jsNull :: [JSVal.str "x"])
      = generateKey "keikka" "list" ([JSVal.int 5] ++ [JSVal.str "x"]) :=
  (generateKey_deterministic_filters_nullish "keikka" "list" [] [] [JSVal.int 5]
    [JSVal.str "x"] JSVal.jsNull).2.1 rfl

/-- C2 counterexample: with caching disabled via the environment flag,
`cache(key, value)` returns `false` (the `withRedis` fallback), not `true`
as claimed, while `get` returns `null`; neither contacts the store. -/
theorem disabledCache_cache_returns_false :
    cacheDisabled { redisCacheEnabled := some "false" } = true ∧
    (cacheOp { redisCacheEnabled := some "false" } [] "k" "v" "keikka" 0).value = false ∧
    (cacheOp { redisCacheEnabled := some "false" } [] "k" "v" "keikka" 0).value ≠ true :=
  ⟨rfl, rfl, by decide⟩

/-- C2 (amended): when caching is disabled via configuration, for every key
and value `get(key)` returns `null` and `cache(key, value)` returns `false`
(reporting the no-op as a failed best-effort write), in both cases without
contacting the backing store, which is left unchanged. -/
theorem disabledCache_noop :
    ∀ (e : Env) (st : CacheKV) (key data entityType : String) (rand : ℚ),
      cacheDisabled e = true →
      getOp e st key = ⟨none, st, false⟩ ∧
      cacheOp e st key data entityType rand = ⟨false, st, false⟩ := by
  intro e st key data entityType rand h
  constructor <;> simp [getOp, cacheOp, h]

/-- Witness for C2 (amended) at a concrete disabled environment. -/
theorem disabledCache_noop_witness :
    getOp { redisCacheEnabled := some "false" } [("k", "v", 100)] "k"
      = ⟨none, [("k", "v", 100)], false⟩ ∧
    cacheOp { redisCacheEnabled := some "false" } [("k", "v", 100)] "k" "w" "keikka" 0
      = ⟨false, [("k", "v", 100)], false⟩ :=
  disabledCache_noop { redisCacheEnabled := some "false" } [("k", "v", 100)]
    "k" "w" "keikka" 0 rfl

/-- C3: `Lock.release()` deletes the lock key iff the stored value still
equals this handle's owner token, returning `true` exactly when it deleted;
when another acquisition owns the key it returns `false` and leaves the
store untouched; and a second `release()` on the same handle is a local
no-op returning `false`. -/
theorem releaseLock_ownership_fencing :
    ∀ (st : LockStore) (l : DistributedLock),
      (l.released = true → releaseLock st l = (false, st, l)) ∧
      (l.released = false →
        (releaseLock st l).2.2 = { l with released := true } ∧
        ((releaseLock st l).1 = true ↔ st.lookup l.lockKey = some l.lockValue) ∧
        (st.lookup l.lockKey = some l.lockValue →
          (releaseLock st l).2.1 = st.filter (fun kv => kv.1 != l.lockKey)) ∧
        (st.lookup l.lockKey ≠ some l.lockValue → (releaseLock st l).2.1 = st)) ∧
      releaseLock (releaseLock st l).2.1 (releaseLock st l).2.2
        = (false, (releaseLock st l).2.1, (releaseLock st l).2.2) := by
  intro st l
  have base : ∀ (st' : LockStore) (l' : DistributedLock), l'.released = true →
      releaseLock st' l' = (false, st', l') := by
    intro st' l' h
    simp [releaseLock, h]
  have hrel : (releaseLock st l).2.2.released = true := by
    unfold releaseLock
    by_cases h : l.released
    · simp [h]
    · simp only [Bool.not_eq_true] at h
      cases hk : st.lookup l.lockKey with
      | none => simp [h, hk]
      | some v =>
        by_cases hv : v = l.lockValue <;> simp [h, hk, hv]
  refine ⟨base st l, fun h => ?_, base _ _ hrel⟩
  cases hk : st.lookup l.lockKey with
  | none =>
    have hrw : releaseLock st l = (false, st, { l with released := true }) := by
      simp [releaseLock, h, hk]
    rw [hrw]
    exact ⟨rfl, by simp, fun hc => absurd hc (by simp), fun _ => rfl⟩
  | some v =>
    by_cases hv : v = l.lockValue
    · subst hv
      have hrw : releaseLock st l
          = (true, st.filter (fun kv => kv.1 != l.lockKey), { l with released := true }) := by
        simp [releaseLock, h, hk]
      rw [hrw]
      exact ⟨rfl, by simp, fun _ => rfl, fun hc => absurd rfl hc⟩
    · have hrw : releaseLock st l = (false, st, { l with released := true }) := by
        simp [releaseLock, h, hk, hv]
      rw [hrw]
      refine ⟨rfl, by simp [hv], fun hc => ?_, fun _ => rfl⟩
      exact absurd (Option.some_injective _ hc) hv

/-- Witness for C3: a handle that still owns its key releases with `true`;
calling `release` on the resulting handle again returns `false`. -/
theorem releaseLock_ownership_fencing_witness :
    (releaseLock [("lock:r", "tok")] ⟨"lock:r", "tok", false⟩).1 = true :=
  ((releaseLock_ownership_fencing [("lock:r", "tok")]
    ⟨"lock:r", "tok", false⟩).2.1 rfl).2.1.mpr (by decide)

/-- C4: `acquireLock(resource, ttlMs)` returns a non-null `Lock` holding the
resource key `lock:{resource}` and the generated owner token iff the atomic
`SET … NX PX` succeeded; it returns `null` when the key already exists and
returns `null` (rather than throwing) on a backing-store error. -/
theorem acquireLock_set_nx :
    ∀ (st : LockStore) (resource : String) (pid ts : Nat) (rnd : String) (err : Bool),
      ((acquireLock st resource (generateLockValue pid ts rnd) err).1 ≠ none ↔
        (err = false ∧ st.lookup ("lock:" ++ resource) = none)) ∧
      (∀ l, (acquireLock st resource (generateLockValue pid ts rnd) err).1 = some l →
        l = ⟨"lock:" ++ resource, generateLockValue pid ts rnd, false⟩ ∧
        (acquireLock st resource (generateLockValue pid ts rnd) err).2
          = ("lock:" ++ resource, generateLockValue pid ts rnd) :: st) ∧
      (err = true → acquireLock st resource (generateLockValue pid ts rnd) err = (none, st)) ∧
      (st.lookup ("lock:" ++ resource) ≠ none →
        (acquireLock st resource (generateLockValue pid ts rnd) err).1 = none) := by
  intro st resource pid ts rnd err
  cases err with
  | true =>
    have hrw : acquireLock st resource (generateLockValue pid ts rnd) true = (none, st) := by
      simp [acquireLock]
    rw [hrw]
    exact ⟨by simp, fun l hl => absurd hl (by simp), fun _ => rfl, fun _ => rfl⟩
  | false =>
    cases hk : st.lookup ("lock:" ++ resource) with
    | none =>
      have hrw : acquireLock st resource (generateLockValue pid ts rnd) false
          = (some ⟨"lock:" ++ resource, generateLockValue pid ts rnd, false⟩,
             ("lock:" ++ resource, generateLockValue pid ts rnd) :: st) := by
        simp [acquireLock, hk]
      rw [hrw]
      refine ⟨by simp, ?_, by simp, fun hc => absurd rfl hc⟩
      intro l hl
      exact ⟨(Option.some_injective _ hl).symm, rfl⟩
    | some v =>
      have hrw : acquireLock st resource (generateLockValue pid ts rnd) false = (none, st) := by
        simp [acquireLock, hk]
      rw [hrw]
      exact ⟨by simp [hk], fun l hl => absurd hl (by simp), by simp, fun _ => rfl⟩

/-- Witness for C4: acquiring on an empty store succeeds. -/
theorem acquireLock_set_nx_witness :
    (acquireLock [] "weather:keikka:12345"
      (generateLockValue 321 1756296000000 "abc123def") false).1 ≠ none :=
  (acquireLock_set_nx [] "weather:keikka:12345" 321 1756296000000 "abc123def"
    false).1.mpr ⟨rfl, rfl⟩

/-- C7: pattern invalidation is idempotent — for any pattern and store, the
first `invalidateByPattern` returns a positive count when matching keys
exist, and running it again immediately returns `0` and changes nothing
(re-invalidating an absent key set is a no-op, not an error; both calls are
total). -/
theorem invalidateByPattern_idempotent :
    ∀ (store : Store) (pattern : String),
      ((∃ key ∈ store, globMatchStr pattern key = true) →
        0 < (invalidateByPattern noDelFailures store pattern).1) ∧
      invalidateByPattern noDelFailures
          (invalidateByPattern noDelFailures store pattern).2 pattern
        = (0, (invalidateByPattern noDelFailures store pattern).2) := by
  intro store pattern
  constructor
  · rintro ⟨key, hmem, hmatch⟩
    have hk : key ∈ scanKeysFull store pattern := List.mem_filter.mpr ⟨hmem, hmatch⟩
    have hne : scanKeysFull store pattern ≠ [] := fun hc => by
      rw [hc] at hk
      exact absurd hk (List.not_mem_nil key)
    have hlen : 0 < (scanKeysFull store pattern).length :=
      List.length_pos.mpr hne
    unfold invalidateByPattern
    simp only [hlen, if_true]
    rw [batchDelete_count_noFail _ _ hne]
    exact hlen
  · have hscan : scanKeysFull (invalidateByPattern noDelFailures store pattern).2 pattern
        = [] := by
      rw [invalidateByPattern_store_noFail]
      unfold scanKeysFull
      rw [List.filter_filter]
      apply List.filter_eq_nil_iff.mpr
      intro a _
      simp
    exact invalidateByPattern_no_match noDelFailures _ pattern hscan

/-- Witness for C7 at a concrete store and pattern. -/
theorem invalidateByPattern_idempotent_witness :
    0 < (invalidateByPattern noDelFailures ["keikka:list:1", "asiakas:get:2"]
      "keikka:*").1 :=
  (invalidateByPattern_idempotent ["keikka:list:1", "asiakas:get:2"] "keikka:*").1
    ⟨"keikka:list:1", by decide, by simp [globMatchStr, globMatch]⟩

/-- C10: the count `batchDelete` reports (and `invalidateByPattern` returns)
is the sum of the sizes of the batches whose `DEL` command succeeded — not
the number of keys the store actually removed: absent or duplicated keys in
a successful batch are still counted (so the report can exceed the keys
actually deleted), and a failed batch contributes `0` while the remaining
batches are still processed. -/
theorem batchDelete_reports_batch_sums :
    (∀ (delFails : Nat → Bool) (store : Store) (keys : List String) (bsz : Nat),
      keys ≠ [] →
      (batchDelete delFails store keys bsz).1
        = successfulBatchSizes delFails (chunkList bsz keys) 0) ∧
    (∀ (delFails : Nat → Bool) (store : Store) (pattern : String),
      scanKeysFull store pattern ≠ [] →
      (invalidateByPattern delFails store pattern).1
        = successfulBatchSizes delFails (chunkList 2000 (scanKeysFull store pattern)) 0) ∧
    (batchDelete noDelFailures ["a"] ["a", "a"]).1 = 2 ∧
    ["a"].length - ((batchDelete noDelFailures ["a"] ["a", "a"]).2).length
      < (batchDelete noDelFailures ["a"] ["a", "a"]).1 ∧
    (batchDelete (fun i => i == 0) ["a", "b"] ["a", "b"] 1).1 = 1 ∧
    (batchDelete (fun i => i == 0) ["a", "b"] ["a", "b"] 1).2 = ["a"] := by
  have h1 : batchDelete noDelFailures ["a"] ["a", "a"] = (2, []) := by
    simp [batchDelete, chunkList, batchDeleteGo, noDelFailures]
  have h2 : batchDelete (fun i => i == 0) ["a", "b"] ["a", "b"] 1 = (1, ["a"]) := by
    simp [batchDelete, chunkList, batchDeleteGo]
  refine ⟨?_, ?_, by rw [h1], by rw [h1]; decide, by rw [h2], by rw [h2]⟩
  · intro delFails store keys bsz hne
    rw [batchDelete, if_neg hne, batchDeleteGo_count]
  · intro delFails store pattern hne
    have hlen : 0 < (scanKeysFull store pattern).length := List.length_pos.mpr hne
    unfold invalidateByPattern
    simp only [hlen, if_true]
    rw [batchDelete, if_neg hne, batchDeleteGo_count]

/-- Witness for C10 at concrete inputs: two batches of one key each, the
first `DEL` failing — only the second batch is counted. -/
theorem batchDelete_reports_batch_sums_witness :
    (batchDelete (fun i => i == 0) ["a", "b"] ["a", "b"] 1).1
      = successfulBatchSizes (fun i => i == 0) (chunkList 1 ["a", "b"]) 0 :=
  batchDelete_reports_batch_sums.1 (fun i => i == 0) ["a", "b"] ["a", "b"] 1
    (by decide)

/-- C1 (code bug): the TTL `cache(key, value, entityType)` actually writes
is `base ± 5 %` jitter with no multiplier and no ceiling clamp, so for the
`keikka` entity type it always lies strictly below the
`base*(multiplier - jitterFraction)` lower bound that the spec (and the
package's own README and the constants module's documentation, which state
`effective_ttl = base_ttl × TTL_MULTIPLIER`, default 4.0, capped at 7 days)
requires; e.g. a `Math.random()` draw of 0.5 yields 3600 s instead of a
value in `[14220, 14580]`. -/
theorem cacheTtl_lacks_multiplier :
    (∀ r : ℚ, 0 ≤ r → r < 1 →
      ¬ specTtlBand 3600 4 (1 / 20) ((cacheTtl "keikka" r : ℤ) : ℚ)) ∧
    cacheTtl "keikka" (1 / 2) = 3600 := by
  have hb : baseTtlFor "keikka" = 3600 := rfl
  constructor
  · intro r _h0 h1 hband
    obtain ⟨hlb, _⟩ := hband
    have hc : cacheTtl "keikka" r
        = 3600 + Int.floor ((3600 : ℚ) * (5 / 100) * (r * 2 - 1)) := by
      simp only [cacheTtl, hb]
      norm_num
    have hfl : ((Int.floor ((3600 : ℚ) * (5 / 100) * (r * 2 - 1)) : ℤ) : ℚ)
        ≤ (3600 : ℚ) * (5 / 100) * (r * 2 - 1) := Int.floor_le _
    have hub : (3600 : ℚ) * (5 / 100) * (r * 2 - 1) < 180 := by nlinarith
    rw [hc] at hlb
    push_cast at hlb
    nlinarith
  · have hz : ((3600 : ℚ) * (5 / 100) * ((1 / 2 : ℚ) * 2 - 1)) = 0 := by norm_num
    simp only [cacheTtl, hb]
    norm_num [hz]

/-- Witness for C1 at the concrete draw `r = 1/2`: the written TTL violates
the spec's band. -/
theorem cacheTtl_lacks_multiplier_witness :
    ¬ specTtlBand 3600 4 (1 / 20) ((cacheTtl "keikka" (1 / 2) : ℤ) : ℚ) :=
  cacheTtl_lacks_multiplier.1 (1 / 2) (by norm_num) (by norm_num)

theorem scanLoop_spec (oracle : Nat → Option (Nat × List String)) :
    ∀ (fuel rounds : Nat) (acc : List String) (cursor : Nat),
      fuel + rounds = maxIterations + 1 →
      acc = collectRounds oracle rounds →
      cursor = cursorAt oracle rounds →
      ((scanLoop oracle fuel cursor acc rounds).rounds ≤ maxIterations + 1 ∧
       (scanLoop oracle fuel cursor acc rounds).keys
         = collectRounds oracle (scanLoop oracle fuel cursor acc rounds).rounds ∧
       ((scanLoop oracle fuel cursor acc rounds).exit = ScanExit.capped →
         (scanLoop oracle fuel cursor acc rounds).rounds = maxIterations + 1) ∧
       ((scanLoop oracle fuel cursor acc rounds).exit = ScanExit.errored →
         oracle (cursorAt oracle (scanLoop oracle fuel cursor acc rounds).rounds) = none)) := by
  intro fuel
  induction fuel with
  | zero =>
    intro rounds acc cursor hfr hacc hcur
    have hr : rounds = maxIterations + 1 := by omega
    have hrw : scanLoop oracle 0 cursor acc rounds = ⟨acc, rounds, ScanExit.capped⟩ := rfl
    rw [hrw]
    refine ⟨le_of_eq hr, hacc, fun _ => hr, ?_⟩
    intro hc
    exact absurd (show ScanExit.capped = ScanExit.errored from hc) (by decide)
  | succ f ih =>
    intro rounds acc cursor hfr hacc hcur
    cases ho : oracle cursor with
    | none =>
      have hrw : scanLoop oracle (f + 1) cursor acc rounds
          = ⟨acc, rounds, ScanExit.errored⟩ := by
        simp only [scanLoop, ho]
      rw [hrw]
      refine ⟨show rounds ≤ maxIterations + 1 by omega, hacc, ?_, fun _ => ?_⟩
      · intro hc
        exact absurd (show ScanExit.errored = ScanExit.capped from hc) (by decide)
      · show oracle (cursorAt oracle rounds) = none
        rw [← hcur]
        exact ho
    | some pr =>
      obtain ⟨c', ks⟩ := pr
      have hcol : collectRounds oracle (rounds + 1) = acc ++ ks := by
        simp only [collectRounds, ← hcur, ho, ← hacc]
      have hcurs : cursorAt oracle (rounds + 1) = c' := by
        simp only [cursorAt, ← hcur, ho]
      by_cases hcap : maxIterations < rounds + 1
      · have hrw : scanLoop oracle (f + 1) cursor acc rounds
            = ⟨acc ++ ks, rounds + 1, ScanExit.capped⟩ := by
          simp only [scanLoop, ho, if_pos hcap]
        rw [hrw]
        refine ⟨show rounds + 1 ≤ maxIterations + 1 by omega, hcol.symm,
          fun _ => show rounds + 1 = maxIterations + 1 by omega, ?_⟩
        intro hc
        exact absurd (show ScanExit.capped = ScanExit.errored from hc) (by decide)
      · by_cases hz : c' = 0
        · have hrw : scanLoop oracle (f + 1) cursor acc rounds
              = ⟨acc ++ ks, rounds + 1, ScanExit.finished⟩ := by
            simp only [scanLoop, ho, if_neg hcap, if_pos hz]
          rw [hrw]
          refine ⟨show rounds + 1 ≤ maxIterations + 1 by omega, hcol.symm, ?_, ?_⟩
          · intro hc
            exact absurd (show ScanExit.finished = ScanExit.capped from hc) (by decide)
          · intro hc
            exact absurd (show ScanExit.finished = ScanExit.errored from hc) (by decide)
        · have hrw : scanLoop oracle (f + 1) cursor acc rounds
              = scanLoop oracle f c' (acc ++ ks) (rounds + 1) := by
            simp only [scanLoop, ho, if_neg hcap, if_neg hz]
          rw [hrw]
          exact ih (rounds + 1) (acc ++ ks) c' (by omega) hcol.symm hcurs.symm

/-- C8 (amended): the `scanKeys` cursor loop always terminates, performing
at most `maxIterations + 1 = 1001` scan rounds (the circuit-breaker check
`iterations > maxIterations` runs after the iteration counter is
incremented, so one extra round beyond the nominal cap of 1000 can occur);
whenever it stops — cap reached or a scan round failed — the keys collected
by the completed rounds are returned as a partial result rather than an
error, and the cap exit happens exactly at round 1001. -/
theorem scanKeys_round_cap :
    ∀ oracle : Nat → Option (Nat × List String),
      (scanKeysCapped oracle).rounds ≤ maxIterations + 1 ∧
      (scanKeysCapped oracle).keys
        = collectRounds oracle (scanKeysCapped oracle).rounds ∧
      ((scanKeysCapped oracle).exit = ScanExit.capped →
        (scanKeysCapped oracle).rounds = maxIterations + 1) ∧
      ((scanKeysCapped oracle).exit = ScanExit.errored →
        oracle (cursorAt oracle (scanKeysCapped oracle).rounds) = none) :=
  fun oracle => scanLoop_spec oracle (maxIterations + 1) 0 [] 0 rfl rfl rfl

set_option maxRecDepth 100000 in
/-- C8 counterexample: a scan whose cursor never returns to `0` performs
1001 rounds — more than the claimed maximum of 1000 cursor rounds. -/
theorem scanKeys_exceeds_1000_rounds :
    (scanKeysCapped (fun c => some (c + 1, []))).rounds = 1001 ∧
    ¬ ((scanKeysCapped (fun c => some (c + 1, []))).rounds ≤ 1000) := by
  constructor <;> decide

set_option maxRecDepth 100000 in
/-- Witness for C8 (amended) at a concrete non-terminating oracle: the cap
exit reports exactly `maxIterations + 1` rounds. -/
theorem scanKeys_round_cap_witness :
    (scanKeysCapped (fun c => some (c + 2, []))).rounds = maxIterations + 1 :=
  (scanKeys_round_cap (fun c => some (c + 2, []))).2.2.1 (by decide)

/-- C5 counterexample: for the calendar day 2025-08-27, the ISO string and
the `YYYYMMDD` integer normalize to `"20250827120000"`, but the epoch-millis
timestamp `1756296000000` (the same instant) is returned verbatim as its
decimal digits — the claimed common `YYYYMMDD` prefix does not hold. -/
theorem formatDate_epoch_millis_not_normalized :
    formatDateForRedis (.num 1756296000000) = "1756296000000" ∧
    formatDateForRedis (.str "2025-08-27T12:00:00Z") = "20250827120000" ∧
    formatDateForRedis (.num 20250827) = "20250827120000" ∧
    (formatDateForRedis (.num 1756296000000)).take 8
      ≠ (formatDateForRedis (.str "2025-08-27T12:00:00Z")).take 8 := by
  refine ⟨?_, ?_, ?_, ?_⟩ <;> decide

/-- C5 (amended): `formatDateForRedis` gives ISO strings, `YYYYMMDD`
integers, eight-digit strings and `Date` objects representing the same
calendar day the same canonical `YYYYMMDDHHMMSS` form (hence the same
`YYYYMMDD` prefix), but an epoch-millis timestamp passed as a plain number
is not normalized: every positive number at most `10^13` outside the
`YYYYMMDD` range is returned verbatim as its decimal digit string, so it
does not share the prefix. -/
theorem formatDate_canonicalization_amended :
    (∀ n : Int, 0 < n → n ≤ 10000000000000 → ¬(20000101 ≤ n ∧ n ≤ 99991231) →
      formatDateForRedis (.num n) = toString n) ∧
    formatDateForRedis (.str "2025-08-27T12:00:00Z") = "20250827120000" ∧
    formatDateForRedis (.dateObj 1756296000000) = "20250827120000" ∧
    formatDateForRedis (.num 20250827) = "20250827120000" ∧
    formatDateForRedis (.str "20250827") = "20250827120000" := by
  refine ⟨?_, by decide, by decide, by decide, by decide⟩
  intro n h0 h13 hrange
  simp only [formatDateForRedis]
  rw [if_neg (by omega), if_neg hrange, if_neg (by omega)]

/-- Witness for C5 (amended) at the concrete epoch-millis instant of
2025-08-27T12:00:00Z. -/
theorem formatDate_canonicalization_amended_witness :
    formatDateForRedis (.num 1756296000000) = toString (1756296000000 : Int) :=
  formatDate_canonicalization_amended.1 1756296000000 (by norm_num) (by norm_num)
    (by omega)

theorem string_toList_inj {s t : String} (h : s.toList = t.toList) : s = t := by
  cases s
  cases t
  simp only [String.toList] at h
  rw [h]

/-- Unique decomposition at a separator character not occurring in the
prefixes. -/
theorem sep_decomp_unique {c : Char} :
    ∀ (p₁ p₂ r₁ r₂ : List Char), c ∉ p₁ → c ∉ p₂ →
      p₁ ++ c :: r₁ = p₂ ++ c :: r₂ → p₁ = p₂ ∧ r₁ = r₂ := by
  intro p₁
  induction p₁ with
  | nil =>
    intro p₂ r₁ r₂ _h₁ h₂ heq
    cases p₂ with
    | nil =>
      rw [List.nil_append, List.nil_append] at heq
      injection heq with _ hr
      exact ⟨rfl, hr⟩
    | cons b p₂ =>
      rw [List.nil_append, List.cons_append] at heq
      injection heq with hb _
      exact absurd (hb ▸ List.mem_cons_self b p₂) h₂
  | cons a p₁ ih =>
    intro p₂ r₁ r₂ h₁ h₂ heq
    cases p₂ with
    | nil =>
      rw [List.cons_append, List.nil_append] at heq
      injection heq with hb _
      exact absurd (hb ▸ List.mem_cons_self a p₁) h₁
    | cons b p₂ =>
      rw [List.cons_append, List.cons_append] at heq
      injection heq with hb hr
      have hrec := ih p₂ r₁ r₂ (fun hc => h₁ (List.mem_cons_of_mem a hc))
        (fun hc => h₂ (List.mem_cons_of_mem b hc)) hr
      exact ⟨by rw [hb, hrec.1], hrec.2⟩

/-- The segment after the last separator is determined: if two
decompositions end in a separator-free tail, the tails agree. -/
theorem last_seg_eq {j k : List Char} (a u : List Char) (hj : ':' ∉ j) (hk : ':' ∉ k)
    (h : a ++ ':' :: j = u ++ ':' :: k) : j = k := by
  have hrev : j.reverse ++ ':' :: a.reverse = k.reverse ++ ':' :: u.reverse := by
    have hc := congrArg List.reverse h
    simpa [List.reverse_append, List.append_assoc] using hc
  have hres := sep_decomp_unique j.reverse k.reverse a.reverse u.reverse
    (by simpa using hj) (by simpa using hk) hrev
  exact List.reverse_injective hres.1

/-- A key beginning `keikka:get:` never has `keikka:list:` as a prefix. -/
theorem not_list_prefix_of_get (rest : List Char) :
    ¬ ("keikka:list:".toList <+: ("keikka:get:".toList ++ rest)) := by
  rintro ⟨t, ht⟩
  have e1 : "keikka:list:".toList
      = ['k', 'e', 'i', 'k', 'k', 'a', ':', 'l', 'i', 's', 't', ':'] := rfl
  have e2 : "keikka:get:".toList
      = ['k', 'e', 'i', 'k', 'k', 'a', ':', 'g', 'e', 't', ':'] := rfl
  rw [e1, e2] at ht
  simp at ht

/-- The store left after sequentially invalidating a list of patterns: the
keys matching none of them. -/
theorem foldInvalidate_store (pats : List String) :
    ∀ (store : Store) (n : Nat),
      (pats.foldl
        (fun acc pat =>
          let r := invalidateByPattern noDelFailures acc.2 pat
          (acc.1 + r.1, r.2)) (n, store)).2
        = store.filter (fun key => !(pats.any (fun pat => globMatchStr pat key))) := by
  induction pats with
  | nil => intro store n; simp
  | cons p ps ih =>
    intro store n
    simp only [List.foldl_cons]
    rw [ih, invalidateByPattern_store_noFail, List.filter_filter]
    apply List.filter_congr
    intro key _
    simp [Bool.and_comm]

theorem invalidateKeikka_store (p : KeikkaParams) (store : Store) :
    (invalidateKeikka noDelFailures store p).2
      = store.filter (fun key => !keikkaDeletes p key) :=
  foldInvalidate_store (keikkaPatterns p) store 0

/-- C6 counterexample: `invalidate` for a `keikka` with the known identifier
`42` still deletes the order-list key `keikka:list:7:8:20250101:20250102`,
which does not contain `42` anywhere — so it is not true that only keys
carrying the identifier in the order-identifier position are deleted. -/
theorem keikka_targeted_invalidation_counterexample :
    keikkaDeletes { keikkaId := some "42" } "keikka:list:7:8:20250101:20250102" = true ∧
    ¬ ("42".toList <:+: "keikka:list:7:8:20250101:20250102".toList) := by
  constructor
  · simp [keikkaDeletes, keikkaPatterns, jsOr, globMatchStr, globMatch]
  · decide

/-- C6 (amended): with a known order identifier `k`, the individual-order
(`keikka:get:…`) keys are targeted exactly — a get key of a different order
`j ≠ k` survives, the get keys of order `k` are deleted — but every
order-list key (`keikka:list:…`, any tenant, any date) is deleted as well,
because the date/person-scoped list patterns are only available when a date
or person is known and the branch otherwise falls back to `keikka:list:*`;
with no identifier at all, all order-list keys are likewise deleted.  The
store after the `keikka` invalidation is exactly the store filtered of the
keys matching a derived pattern. -/
theorem keikka_invalidation_scope :
    ∀ (a j k : String),
      ':' ∉ j.toList → ':' ∉ k.toList → '*' ∉ k.toList → j ≠ k →
      (keikkaDeletes { keikkaId := some k } ("keikka:get:" ++ a ++ ":" ++ j) = false ∧
       keikkaDeletes { keikkaId := some k } ("keikka:get:" ++ a ++ ":" ++ k) = true ∧
       (∀ key : String, "keikka:list:".toList <+: key.toList →
         keikkaDeletes { keikkaId := some k } key = true) ∧
       (∀ key : String, "keikka:list:".toList <+: key.toList →
         keikkaDeletes {} key = true) ∧
       (∀ store : Store,
         (invalidateKeikka noDelFailures store { keikkaId := some k }).2
           = store.filter (fun key => !keikkaDeletes { keikkaId := some k } key))) := by
  intro a j k hj hk hks hjk
  have hpat : keikkaPatterns { keikkaId := some k }
      = ["keikka:get:*:" ++ k, "keikka:list:*"] := rfl
  have hp1 : ("keikka:get:*:" ++ k).toList
      = "keikka:get:".toList ++ '*' :: ':' :: k.toList := rfl
  have hp2 : "keikka:list:*".toList = "keikka:list:".toList ++ ['*'] := rfl
  have hstar : '*' ∉ ':' :: k.toList := by
    intro hc
    rcases List.mem_cons.mp hc with h | h
    · exact absurd h (by decide)
    · exact hks h
  have hkeyJ : ("keikka:get:" ++ a ++ ":" ++ j).toList
      = "keikka:get:".toList ++ (a.toList ++ ':' :: j.toList) := by
    simp [toList_append, List.append_assoc]
  have hkeyK : ("keikka:get:" ++ a ++ ":" ++ k).toList
      = "keikka:get:".toList ++ (a.toList ++ ':' :: k.toList) := by
    simp [toList_append, List.append_assoc]
  have hlit : '*' ∉ "keikka:get:".toList := by decide
  have hlit2 : '*' ∉ "keikka:list:".toList := by decide
  refine ⟨?_, ?_, ?_, ?_, fun store => invalidateKeikka_store _ store⟩
  · -- the other order's get key survives
    have hglob1 : globMatchStr ("keikka:get:*:" ++ k) ("keikka:get:" ++ a ++ ":" ++ j)
        = false := by
      by_contra hc
      rw [Bool.not_eq_false] at hc
      unfold globMatchStr at hc
      rw [hp1, hkeyJ, globMatch_lit_append _ hlit] at hc
      obtain ⟨t, ht, hm⟩ := hc
      have ht' : a.toList ++ ':' :: j.toList = t := List.append_cancel_left ht
      rw [globMatch_star_lit _ hstar] at hm
      obtain ⟨u, hu⟩ := hm
      rw [← ht'] at hu
      exact hjk (string_toList_inj (last_seg_eq a.toList u hj hk hu))
    have hglob2 : globMatchStr "keikka:list:*" ("keikka:get:" ++ a ++ ":" ++ j)
        = false := by
      by_contra hc
      rw [Bool.not_eq_false] at hc
      unfold globMatchStr at hc
      rw [hp2, hkeyJ, globMatch_lit_star _ hlit2] at hc
      exact not_list_prefix_of_get _ hc
    simp [keikkaDeletes, hpat, hglob1, hglob2]
  · -- the targeted order's get key is deleted
    have hglob1 : globMatchStr ("keikka:get:*:" ++ k) ("keikka:get:" ++ a ++ ":" ++ k)
        = true := by
      unfold globMatchStr
      rw [hp1, hkeyK, globMatch_lit_append _ hlit]
      exact ⟨a.toList ++ ':' :: k.toList, rfl,
        (globMatch_star_lit _ hstar _).mpr ⟨a.toList, rfl⟩⟩
    simp [keikkaDeletes, hpat, hglob1]
  · -- every order-list key is deleted (identifier known)
    intro key hpre
    have hglob2 : globMatchStr "keikka:list:*" key = true := by
      unfold globMatchStr
      rw [hp2, globMatch_lit_star _ hlit2]
      exact hpre
    simp [keikkaDeletes, hpat, hglob2]
  · -- every order-list key is deleted (no identifier)
    intro key hpre
    have hpat0 : keikkaPatterns {} = ["keikka:get:*:*", "keikka:list:*"] := rfl
    have hglob2 : globMatchStr "keikka:list:*" key = true := by
      unfold globMatchStr
      rw [hp2, globMatch_lit_star _ hlit2]
      exact hpre
    simp [keikkaDeletes, hpat0, hglob2]

/-- Witness for C6 (amended) at concrete identifiers: order 7's get key
survives invalidation targeted at order 42, order 42's get key is deleted,
and a concrete list key is deleted. -/
theorem keikka_invalidation_scope_witness :
    keikkaDeletes { keikkaId := some "42" } ("keikka:get:" ++ "1" ++ ":" ++ "7") = false ∧
    keikkaDeletes { keikkaId := some "42" } ("keikka:get:" ++ "1" ++ ":" ++ "42") = true :=
  ⟨(keikka_invalidation_scope "1" "7" "42" (by decide) (by decide) (by decide)
      (by decide)).1,
   (keikka_invalidation_scope "1" "7" "42" (by decide) (by decide) (by decide)
      (by decide)).2.1⟩

end IbetoniCache
